import Mathlib

/-!
Verification of the Cypher query repair engine
(`src/agents/query_validator.py`, class `QueryValidator`).

The Python code is embedded shallowly:

* strings become `List Char`;
* the Python `re` library semantics (leftmost backtracking match, greedy
  and lazy quantifiers, capture groups, backreferences, `finditer` with
  non-overlapping scan, `sub` with template expansion) are implemented by
  an executable fuel-based matcher over a regex AST; each of the seven
  rewrite-rule patterns of `QueryValidator.__init__` is transcribed into
  that AST;
* the only partial Python operation reached by `validate_and_fix`
  (the division `len(fixed_query) / len(original_query)` in the logging
  branch) is modelled by returning `Option`: `none` is a raised
  `ZeroDivisionError`.
-/

/-- String literal to character list. -/
def cs (s : String) : List Char := s.data

/-- Python `s.startswith(pat)` on character lists. -/
def startsWithL : List Char → List Char → Bool
  | _, [] => true
  | [], _ :: _ => false
  | c :: s, d :: p => c == d && startsWithL s p

/-- Python `pat in s` (substring containment) on character lists. -/
def hasSub : List Char → List Char → Bool
  | [], pat => pat == []
  | c :: rest, pat => startsWithL (c :: rest) pat || hasSub rest pat

/-- Python `s.count(pat)` (non-overlapping occurrences), fuelled. -/
def countSub : Nat → List Char → List Char → Nat
  | 0, _, _ => 0
  | fuel + 1, s, pat =>
    match s with
    | [] => 0
    | c :: rest =>
      if !(pat == []) && startsWithL (c :: rest) pat then
        1 + countSub fuel ((c :: rest).drop pat.length) pat
      else
        countSub fuel rest pat

/-- Python `s.count(pat)`. -/
def pyCount (s pat : List Char) : Nat := countSub (s.length + 1) s pat

/-- Python `s.replace(old, new)` (all non-overlapping occurrences,
left to right), fuelled. -/
def replaceAll : Nat → List Char → List Char → List Char → List Char
  | 0, s, _, _ => s
  | fuel + 1, s, old, new =>
    match s with
    | [] => []
    | c :: rest =>
      if !(old == []) && startsWithL (c :: rest) old then
        new ++ replaceAll fuel ((c :: rest).drop old.length) old new
      else
        c :: replaceAll fuel rest old new

/-- Python `s.replace(old, new)`. -/
def pyReplace (s old new : List Char) : List Char :=
  replaceAll (s.length + 1) s old new

/-- The slice `s[a:b]`. -/
def sliceL (s : List Char) (a b : Nat) : List Char := (s.drop a).take (b - a)

/-- Capture-group environment: entries `(index, start, stop)`, most
recent capture first (as Python keeps the last capture of a group). -/
abbrev GMap := List (Nat × Nat × Nat)

/-- Look up the span last captured for group `i`. -/
def lookupG : GMap → Nat → Option (Nat × Nat)
  | [], _ => none
  | (i, a, b) :: rest, j => if i == j then some (a, b) else lookupG rest j

/-- Record a capture for group `i`. -/
def setG (g : GMap) (i a b : Nat) : GMap := (i, a, b) :: g

/-- Regex AST covering exactly the constructs used by the patterns of
`QueryValidator`: literals, character classes, `.`, sequencing,
alternation, capture groups, greedy/lazy `*` and `+`, backreferences
and the `$` anchor. -/
inductive RE where
  | eps : RE
  | lit : Char → RE
  | cls : (Char → Bool) → RE
  | any : RE
  | seq : RE → RE → RE
  | alt : RE → RE → RE
  | grp : Nat → RE → RE
  | star : Bool → RE → RE
  | plus : Bool → RE → RE
  | bref : Nat → RE
  | eos : RE

/-- First-success choice on optional match results. -/
def orO (x y : Option (Nat × GMap)) : Option (Nat × GMap) :=
  match x with
  | some r => some r
  | none => y

/-- Backtracking matcher in continuation style, reproducing Python `re`
semantics: alternatives are tried left first, greedy quantifiers prefer
longer matches, lazy quantifiers prefer shorter ones, and the first
overall success is returned.  `matRE fuel re s p g k` attempts to match
`re` at position `p` of `s` with group environment `g`, calling `k` on
the positions after the match in preference order.  A quantifier
iteration must advance the position (all quantified subpatterns of the
validator consume at least one character, so this is no restriction);
the fuel bounds the recursion depth and is chosen large enough at every
call site.  A backreference advances by the length of the captured
slice, which equals the span width for every span the matcher stores. -/
def matRE : Nat → RE → List Char → Nat → GMap →
    (Nat → GMap → Option (Nat × GMap)) → Option (Nat × GMap)
  | 0, _, _, _, _, _ => none
  | fuel + 1, re, s, p, g, k =>
    match re with
    | .eps => k p g
    | .lit c =>
      match s.get? p with
      | some d => if d == c then k (p + 1) g else none
      | none => none
    | .cls t =>
      match s.get? p with
      | some d => if t d then k (p + 1) g else none
      | none => none
    | .any =>
      match s.get? p with
      | some d => if d == '\n' then none else k (p + 1) g
      | none => none
    | .seq a b => matRE fuel a s p g (fun p1 g1 => matRE fuel b s p1 g1 k)
    | .alt a b => orO (matRE fuel a s p g k) (matRE fuel b s p g k)
    | .grp i a => matRE fuel a s p g (fun p1 g1 => k p1 (setG g1 i p p1))
    | .star greedy a =>
      let more := matRE fuel a s p g
        (fun p1 g1 => if p < p1 then matRE fuel (.star greedy a) s p1 g1 k else none)
      if greedy then orO more (k p g) else orO (k p g) more
    | .plus greedy a =>
      matRE fuel a s p g (fun p1 g1 => matRE fuel (.star greedy a) s p1 g1 k)
    | .bref i =>
      match lookupG g i with
      | some (a, b) =>
        if startsWithL (s.drop p) (sliceL s a b) then
          k (p + (sliceL s a b).length) g
        else none
      | none => none
    | .eos =>
      if p == s.length then k p g
      else
        match s.get? p with
        | some d => if d == '\n' && p + 1 == s.length then k p g else none
        | none => none

/-- Fuel that always suffices for the validator's patterns: recursion
depth is bounded by the pattern size plus a small constant per consumed
character. -/
def bigFuel (s : List Char) : Nat := 4 * s.length + 200

/-- Anchored match attempt at position `p`; on success returns the end
position and the group environment. -/
def matchAt (re : RE) (s : List Char) (p : Nat) : Option (Nat × GMap) :=
  matRE (bigFuel s) re s p [] (fun q g => some (q, g))

/-- Leftmost search from position `p` (Python scans positions left to
right and returns the first anchored success). -/
def searchFromAux : Nat → RE → List Char → Nat → Option (Nat × Nat × GMap)
  | 0, _, _, _ => none
  | fuel + 1, re, s, p =>
    match matchAt re s p with
    | some (e, g) => some (p, e, g)
    | none => if s.length ≤ p then none else searchFromAux fuel re s (p + 1)

/-- Python `re.search`: triple `(start, stop, groups)` of the leftmost
match, if any. -/
def pySearch (re : RE) (s : List Char) : Option (Nat × Nat × GMap) :=
  searchFromAux (s.length + 1) re s 0

/-- Python `re.finditer`: all non-overlapping matches, scanning left to
right; after an empty match the scan advances one position. -/
def finditerAux : Nat → RE → List Char → Nat → List (Nat × Nat × GMap)
  | 0, _, _, _ => []
  | fuel + 1, re, s, p =>
    if s.length < p then []
    else
      match searchFromAux (s.length + 1 - p) re s p with
      | none => []
      | some (st, en, g) =>
        (st, en, g) :: finditerAux fuel re s (if st < en then en else en + 1)

/-- Python `re.finditer` from the start of the string. -/
def finditer (re : RE) (s : List Char) : List (Nat × Nat × GMap) :=
  finditerAux (s.length + 2) re s 0

/-- One replacement unit: `(start, stop, replacement text)`. -/
abbrev Repl3 := Nat × Nat × List Char

/-- One splice step of `validate_and_fix`:
`fixed_query[:match.start()] + replacement_text + fixed_query[match.end():]`. -/
def spliceOne (t : List Char) (m : Repl3) : List Char :=
  t.take m.1 ++ m.2.2 ++ t.drop m.2.1

/-- The loop of `validate_and_fix` for callable replacements: process the
collected matches from the last back to the first, splicing each
replacement into the working string. -/
def spliceRTL (s : List Char) (ms : List Repl3) : List Char :=
  ms.reverse.foldl spliceOne s

/-- Specification-side operation ("simultaneously replacing every
matched span by its replacement"): assemble the unmatched gaps and the
replacement texts left to right.  `p` is the current position in `s`. -/
def simReplaceFrom (s : List Char) : Nat → List Repl3 → List Char
  | p, [] => s.drop p
  | p, (st, en, r) :: ms => (s.drop p).take (st - p) ++ r ++ simReplaceFrom s en ms

/-- Simultaneous replacement of all listed spans. -/
def simultaneousReplace (s : List Char) (ms : List Repl3) : List Char :=
  simReplaceFrom s 0 ms

/-- Replacement template item: literal text or a group reference `\i`. -/
inductive TItem where
  | lit : List Char → TItem
  | ref : Nat → TItem

/-- A replacement template (a parsed Python replacement string). -/
abbrev Tmpl := List TItem

/-- Expand a replacement template against the captured groups. -/
def expandT (s : List Char) (g : GMap) : Tmpl → List Char
  | [] => []
  | .lit l :: t => l ++ expandT s g t
  | .ref i :: t =>
    (match lookupG g i with
     | some (a, b) => sliceL s a b
     | none => []) ++ expandT s g t

/-- Python `re.sub(pattern, template, s)`: replace every non-overlapping
match by its expanded template. -/
def pySub (re : RE) (t : Tmpl) (s : List Char) : List Char :=
  simultaneousReplace s
    ((finditer re s).map (fun m => (m.1, m.2.1, expandT s m.2.2 t)))

/-- The data a Python match object supplies to the repair callables:
`group(0)` and `group(1)` .. `group(4)`. -/
structure MData where
  whole : List Char
  g1 : List Char
  g2 : List Char
  g3 : List Char
  g4 : List Char

/-- Group text of a recorded span (`""` for an unset group). -/
def groupText (s : List Char) (g : GMap) (i : Nat) : List Char :=
  match lookupG g i with
  | some (a, b) => sliceL s a b
  | none => []

/-- Build the match data handed to a repair callable. -/
def mkMData (s : List Char) (st en : Nat) (g : GMap) : MData :=
  ⟨sliceL s st en, groupText s g 1, groupText s g 2, groupText s g 3,
    groupText s g 4⟩

/-- ASCII lower-casing of one character (Python `str.lower` on the
validator's ASCII queries). -/
def lowerC (c : Char) : Char :=
  if 'A' ≤ c && c ≤ 'Z' then Char.ofNat (c.toNat + 32) else c

/-- ASCII lower-casing of a string. -/
def lowerL (s : List Char) : List Char := s.map lowerC

/-- `QueryValidator._fix_undefined_relationship_var`: keep `r.prop`-style
property accesses (one trailing space), leave everything else as the
matched text. -/
def fixUndefinedRelationshipVar (m : MData) : List Char :=
  let pre := m.g1
  let relVar := m.g2
  let prop := m.g3
  if lowerL relVar == cs "r" || startsWithL (lowerL relVar) (cs "rel") then
    pre ++ relVar ++ cs "." ++ prop ++ cs " "
  else
    m.whole

/-- `QueryValidator._balance_parentheses`: append the missing closing
parentheses to the matched fragment. -/
def balanceParentheses (m : MData) : List Char :=
  let fragment := m.whole
  let openCount := fragment.count '('
  let closeCount := fragment.count ')'
  if openCount ≤ closeCount then fragment
  else fragment ++ List.replicate (openCount - closeCount) ')'

/-- `QueryValidator._ensure_relationship_var_defined`: if the
relationship variable is already defined in the match clause, return the
match unchanged; otherwise alias the same-typed anonymous relationship
in the match clause and append the fixed-format tail
`-[var:type]->.*?WHERE.*?var.prop`. -/
def ensureRelationshipVarDefined (m : MData) : List Char :=
  let matchClause := m.g1
  let relVar := m.g2
  let relType := m.g3
  let prop := m.g4
  if hasSub matchClause (cs "-[" ++ relVar ++ cs ":") then
    m.whole
  else
    pyReplace matchClause (cs "-[:" ++ relType ++ cs "]->")
        (cs "-[" ++ relVar ++ cs ":" ++ relType ++ cs "]->")
      ++ cs "-[" ++ relVar ++ cs ":" ++ relType ++ cs "]->.*?WHERE.*?"
      ++ relVar ++ cs "." ++ prop

/-- Python `\w` (ASCII range, as in the validator's queries). -/
def wordB (c : Char) : Bool :=
  ('a' ≤ c && c ≤ 'z') || ('A' ≤ c && c ≤ 'Z') || ('0' ≤ c && c ≤ '9') || c == '_'

/-- Python `[a-zA-Z]`. -/
def alphaB (c : Char) : Bool :=
  ('a' ≤ c && c ≤ 'z') || ('A' ≤ c && c ≤ 'Z')

/-- Python `\d`. -/
def digitB (c : Char) : Bool := '0' ≤ c && c ≤ '9'

/-- Python `\s` (ASCII whitespace). -/
def spaceB (c : Char) : Bool :=
  c == ' ' || c == '\t' || c == '\n' || c == '\r' || c == '\x0b' || c == '\x0c'

/-- Sequence a list of regexes. -/
def seqs (l : List RE) : RE := l.foldr RE.seq RE.eps

/-- Literal word as a regex. -/
def rstr (s : String) : RE := seqs (s.data.map RE.lit)

/-- `\s+`. -/
def spacePlus : RE := RE.plus true (RE.cls spaceB)

/-- `\s*`. -/
def spaceStar : RE := RE.star true (RE.cls spaceB)

/-- `\w+`. -/
def wordPlus : RE := RE.plus true (RE.cls wordB)

/-- `.*?`. -/
def lazyDotStar : RE := RE.star false RE.any

/-- Rule 1 pattern `WHERE\s+(.+?)\s+WHERE\s+`. -/
def re1 : RE :=
  seqs [rstr "WHERE", spacePlus, RE.grp 1 (RE.plus false RE.any), spacePlus,
    rstr "WHERE", spacePlus]

/-- Rule 1 template `WHERE \1 AND `. -/
def tmpl1 : Tmpl := [.lit (cs "WHERE "), .ref 1, .lit (cs " AND ")]

/-- Rule 2 pattern `(\[)(:)([^\]]+)(\])`. -/
def re2 : RE :=
  seqs [RE.grp 1 (RE.lit '['), RE.grp 2 (RE.lit ':'),
    RE.grp 3 (RE.plus true (RE.cls (fun c => !(c == ']')))),
    RE.grp 4 (RE.lit ']')]

/-- Rule 2 template `\1r\2\3\4`. -/
def tmpl2 : Tmpl := [.ref 1, .lit (cs "r"), .ref 2, .ref 3, .ref 4]

/-- `[a-zA-Z][a-zA-Z0-9_]*`. -/
def identRE : RE := RE.seq (RE.cls alphaB) (RE.star true (RE.cls wordB))

/-- Rule 3 pattern
`([^a-zA-Z0-9_])([a-zA-Z][a-zA-Z0-9_]*)\.([a-zA-Z][a-zA-Z0-9_]*)\s+`. -/
def re3 : RE :=
  seqs [RE.grp 1 (RE.cls (fun c => !wordB c)), RE.grp 2 identRE, RE.lit '.',
    RE.grp 3 identRE, spacePlus]

/-- Rule 4 pattern `\([^()]*?$`. -/
def re4 : RE :=
  seqs [RE.lit '(',
    RE.star false (RE.cls (fun c => !(c == '(' || c == ')'))), RE.eos]

/-- Rule 5 pattern `MATCH\s+path\s*=\s*\(([^:)]+):`. -/
def re5 : RE :=
  seqs [rstr "MATCH", spacePlus, rstr "path", spaceStar, RE.lit '=', spaceStar,
    RE.lit '(',
    RE.grp 1 (RE.plus true (RE.cls (fun c => !(c == ':' || c == ')')))),
    RE.lit ':']

/-- Rule 5 template `MATCH path = (n:\1:`. -/
def tmpl5 : Tmpl := [.lit (cs "MATCH path = (n:"), .ref 1, .lit (cs ":")]

/-- Rule 6 pattern
`(WHERE|AND)\s+\((\w+)\)-\[.*?\]->\((\w+)\)\s+AND\s+\(\2\)-\[.*?\]->\(\3\)`. -/
def re6 : RE :=
  seqs [RE.grp 1 (RE.alt (rstr "WHERE") (rstr "AND")), spacePlus, RE.lit '(',
    RE.grp 2 wordPlus, RE.lit ')', rstr "-[", lazyDotStar, rstr "]->",
    RE.lit '(', RE.grp 3 wordPlus, RE.lit ')', spacePlus, rstr "AND",
    spacePlus, RE.lit '(', RE.bref 2, RE.lit ')', rstr "-[", lazyDotStar,
    rstr "]->", RE.lit '(', RE.bref 3, RE.lit ')']

/-- Rule 6 template `\1 (\2)-[]->\3`. -/
def tmpl6 : Tmpl := [.ref 1, .lit (cs " ("), .ref 2, .lit (cs ")-[]->"), .ref 3]

/-- Rule 7 pattern `(MATCH.*?)-\[(\w+):([^\]]+)\]->.*?WHERE.*?\2\.(\w+)`. -/
def re7 : RE :=
  seqs [RE.grp 1 (RE.seq (rstr "MATCH") lazyDotStar), rstr "-[",
    RE.grp 2 wordPlus, RE.lit ':',
    RE.grp 3 (RE.plus true (RE.cls (fun c => !(c == ']')))), rstr "]->",
    lazyDotStar, rstr "WHERE", lazyDotStar, RE.bref 2, RE.lit '.',
    RE.grp 4 wordPlus]

/-- A rewrite rule's right-hand side: template or repair callable. -/
inductive Repl where
  | tmpl : Tmpl → Repl
  | fn : (MData → List Char) → Repl

/-- A rewrite rule of `self.error_fixes`. -/
abbrev Rule := RE × Repl

/-- The rule table `self.error_fixes` built by `QueryValidator.__init__`,
in order. -/
def errorFixes : List Rule :=
  [(re1, .tmpl tmpl1),
   (re2, .tmpl tmpl2),
   (re3, .fn fixUndefinedRelationshipVar),
   (re4, .fn balanceParentheses),
   (re5, .tmpl tmpl5),
   (re6, .tmpl tmpl6),
   (re7, .fn ensureRelationshipVarDefined)]

/-- The per-match replacements computed for a callable rule (match data
taken from the string as it was when the matches were collected). -/
def fnReplacements (re : RE) (f : MData → List Char) (s : List Char) :
    List Repl3 :=
  (finditer re s).map (fun m => (m.1, m.2.1, f (mkMData s m.1 m.2.1 m.2.2)))

/-- The callable branch of the rule loop in `validate_and_fix`: collect
all matches upfront, then splice the computed replacements from the last
match back to the first. -/
def applyFnRule (re : RE) (f : MData → List Char) (s : List Char) :
    List Char :=
  spliceRTL s (fnReplacements re f s)

/-- Apply one rewrite rule (one iteration of the `for pattern,
replacement in self.error_fixes` loop). -/
def applyRule (s : List Char) : Rule → List Char
  | (re, .tmpl t) => pySub re t s
  | (re, .fn f) => applyFnRule re f s

/-- Apply a rule table left to right. -/
def applyAllFixesWith (rules : List Rule) (q : List Char) : List Char :=
  rules.foldl applyRule q

/-- The full rewrite pass of `validate_and_fix`. -/
def applyAllFixes (q : List Char) : List Char := applyAllFixesWith errorFixes q

/-- Issue text 1. -/
def issueUndefRel : List Char := cs "Possible undefined relationship variable"

/-- Issue text 2. -/
def issueCartesian : List Char :=
  cs "Possible cartesian product (multiple MATCH without WHERE)"

/-- Issue text 3. -/
def issueOptional : List Char :=
  cs "Multiple OPTIONAL MATCH clauses may cause performance issues"

/-- Issue text 4. -/
def issueUnbounded : List Char :=
  cs "Unbounded variable-length path may cause performance issues"

/-- Search pattern `WHERE.*?\w+\.\w+`. -/
def reWhereProp : RE :=
  seqs [rstr "WHERE", lazyDotStar, wordPlus, RE.lit '.', wordPlus]

/-- Search pattern `MATCH.*?\[(\w+):`. -/
def reMatchBr : RE :=
  seqs [rstr "MATCH", lazyDotStar, RE.lit '[', RE.grp 1 wordPlus, RE.lit ':']

/-- Search pattern `\[.*\*.*\]`. -/
def reUnbStar : RE :=
  seqs [RE.lit '[', RE.star true RE.any, RE.lit '*', RE.star true RE.any,
    RE.lit ']']

/-- Search pattern `\[.*\*\d+\.\.`. -/
def reBnd : RE :=
  seqs [RE.lit '[', RE.star true RE.any, RE.lit '*',
    RE.plus true (RE.cls digitB), RE.lit '.', RE.lit '.']

/-- `QueryValidator._check_known_issues`, run on the rewritten query. -/
def checkKnownIssues (q : List Char) : List (List Char) :=
  (if (pySearch reWhereProp q).isSome && !(pySearch reMatchBr q).isSome then
    [issueUndefRel] else [])
  ++ (if decide (1 < pyCount q (cs "MATCH ")) && !(hasSub q (cs "WHERE")) then
    [issueCartesian] else [])
  ++ (if hasSub q (cs "OPTIONAL MATCH")
        && decide (2 < pyCount q (cs "OPTIONAL MATCH")) then
    [issueOptional] else [])
  ++ (if (pySearch reUnbStar q).isSome && !(pySearch reBnd q).isSome then
    [issueUnbounded] else [])

/-- Join issue texts with `", "` (Python `", ".join(issues)`). -/
def joinWith (sep : List Char) : List (List Char) → List Char
  | [] => []
  | [x] => x
  | x :: y :: rest => x ++ sep ++ joinWith sep (y :: rest)

/-- Build the returned triple once the rewritten query is fixed:
the issue check only decides the message, never the query text. -/
def finishResult (fixed : List Char) : List Char × Bool × Option (List Char) :=
  let issues := checkKnownIssues fixed
  if issues = [] then (fixed, true, none)
  else (fixed, true,
    some (cs "Query has potential issues: " ++ joinWith (cs ", ") issues))

/-- `QueryValidator.validate_and_fix` on a (non-empty) string, after the
input guard.  The logging branch runs only when the query was modified;
there Python evaluates `len(fixed_query) / len(original_query)`, which
raises `ZeroDivisionError` on an empty original — modelled as `none`.
The ratio thresholds only select a log line and cannot affect the
returned triple. -/
def validateAndFixStrWith (rules : List Rule) (q : List Char) :
    Option (List Char × Bool × Option (List Char)) :=
  let fixed := applyAllFixesWith rules q
  if fixed = q then some (finishResult fixed)
  else if q.length = 0 then none
  else some (finishResult fixed)

/-- `validate_and_fix` on a string with the rule table of
`QueryValidator.__init__`. -/
def validateAndFixStr (q : List Char) :
    Option (List Char × Bool × Option (List Char)) :=
  validateAndFixStrWith errorFixes q

/-- The dynamically typed argument of `validate_and_fix`: a string,
`None`, or any non-string value. -/
inductive PyVal where
  | str : String → PyVal
  | pynone : PyVal
  | other : PyVal
deriving DecidableEq

/-- The hard-failure message. -/
def invalidMsg : String := "Invalid query: Query must be a non-empty string"

/-- `query` is a non-empty string (the input guard's accepted case). -/
def isNonEmptyStr : PyVal → Bool
  | .str s => !(s.data == [])
  | _ => false

/-- `QueryValidator.validate_and_fix` including the input guard
`if not query or not isinstance(query, str)`, reading the rule table
from the instance state. -/
def validateAndFixUsing (rules : List Rule) :
    PyVal → Option (PyVal × Bool × Option String)
  | .str s =>
    if s.data = [] then some (.str s, false, some invalidMsg)
    else
      (validateAndFixStrWith rules s.data).map
        (fun r => (.str ⟨r.1⟩, r.2.1, r.2.2.map (fun m => ⟨m⟩)))
  | .pynone => some (.pynone, false, some invalidMsg)
  | .other => some (.other, false, some invalidMsg)

/-- `QueryValidator.validate_and_fix` with the constructed rule table. -/
def validateAndFix (v : PyVal) : Option (PyVal × Bool × Option String) :=
  validateAndFixUsing errorFixes v

/-- The state of a `QueryValidator` instance: its `error_fixes` table. -/
def QueryValidatorState := List Rule

/-- `QueryValidator.__init__`: build the rule table. -/
def queryValidatorInit : QueryValidatorState := errorFixes

/-- The method call `self.validate_and_fix(q)`: the body reads
`self.error_fixes` and contains no assignment to `self`, so the
post-call state is the pre-call state. -/
def validateAndFixMeth (self : QueryValidatorState) (q : PyVal) :
    QueryValidatorState × Option (PyVal × Bool × Option String) :=
  (self, validateAndFixUsing self q)

/-- The invariant of a left-to-right non-overlapping match list: starting
from scan position `p`, every span starts no earlier than the previous
one ended and stays within the string. -/
def chainFrom {α : Type} (len : Nat) : Nat → List (Nat × Nat × α) → Prop
  | _, [] => True
  | p, (st, en, _) :: ms => p ≤ st ∧ st ≤ en ∧ en ≤ len ∧ chainFrom len en ms

theorem chainFrom_mono {α : Type} {len p q : Nat} {ms : List (Nat × Nat × α)}
    (h : chainFrom len p ms) (hq : q ≤ p) : chainFrom len q ms := by
  cases ms with
  | nil => trivial
  | cons m ms =>
    obtain ⟨mst, men, mr⟩ := m
    obtain ⟨h1, h⟩ := h
    exact ⟨le_trans hq h1, h⟩

theorem simReplaceFrom_take {s : List Char} {ms : List Repl3} {q n : Nat}
    (hc : chainFrom s.length q ms) (hn : n ≤ q) (hns : n ≤ s.length) :
    (simReplaceFrom s 0 ms).take n = s.take n := by
  cases ms with
  | nil => simp [simReplaceFrom]
  | cons m ms =>
    obtain ⟨st, en, r⟩ := m
    obtain ⟨h1, h2, h3, hc'⟩ := hc
    have hnst : n ≤ st := le_trans hn h1
    simp only [simReplaceFrom, List.drop_zero, Nat.sub_zero, List.append_assoc]
    rw [List.take_append_of_le_length (by simp [List.length_take]; omega),
      List.take_take, Nat.min_eq_left hnst]

theorem simReplaceFrom_drop {s : List Char} {ms : List Repl3} {q n : Nat}
    (hc : chainFrom s.length q ms) (hn : n ≤ q) (hns : n ≤ s.length) :
    (simReplaceFrom s 0 ms).drop n = simReplaceFrom s n ms := by
  cases ms with
  | nil => simp [simReplaceFrom]
  | cons m ms =>
    obtain ⟨st, en, r⟩ := m
    obtain ⟨h1, h2, h3, hc'⟩ := hc
    have hnst : n ≤ st := le_trans hn h1
    simp only [simReplaceFrom, List.drop_zero, Nat.sub_zero, List.append_assoc]
    rw [List.drop_append_of_le_length (by simp [List.length_take]; omega),
      List.drop_take]

theorem spliceRTL_cons (s : List Char) (m : Repl3) (ms : List Repl3) :
    spliceRTL s (m :: ms) = spliceOne (spliceRTL s ms) m := by
  simp [spliceRTL, List.foldl_append]

/-- Right-to-left splicing over a chain of matches equals simultaneous
replacement of all the spans. -/
theorem spliceRTL_eq_sim {s : List Char} :
    ∀ {ms : List Repl3}, chainFrom s.length 0 ms →
      spliceRTL s ms = simultaneousReplace s ms
  | [], _ => by simp [spliceRTL, simultaneousReplace, simReplaceFrom]
  | (st, en, r) :: ms, hc => by
    obtain ⟨h0, hse, hel, hc'⟩ := hc
    rw [spliceRTL_cons,
      spliceRTL_eq_sim (chainFrom_mono hc' (Nat.zero_le en))]
    show (simReplaceFrom s 0 ms).take st ++ r ++ (simReplaceFrom s 0 ms).drop en
      = simultaneousReplace s ((st, en, r) :: ms)
    rw [simReplaceFrom_take hc' hse (le_trans hse hel),
      simReplaceFrom_drop hc' (le_refl en) hel]
    simp [simultaneousReplace, simReplaceFrom]

theorem startsWithL_length : ∀ (u v : List Char),
    startsWithL u v = true → v.length ≤ u.length
  | _, [] => by intro _; simp
  | [], _ :: _ => by intro h; simp [startsWithL] at h
  | c :: u, d :: v => by
    intro h
    simp only [startsWithL, Bool.and_eq_true] at h
    simpa using startsWithL_length u v h.2

theorem orO_eq_some {x y : Option (Nat × GMap)} {r : Nat × GMap}
    (h : orO x y = some r) : x = some r ∨ y = some r := by
  cases x with
  | some v => exact Or.inl h
  | none => exact Or.inr h

/-- Every success of the matcher factors through the continuation at a
position that lies between the starting position and the string end. -/
theorem matRE_advance : ∀ (fuel : Nat) (re : RE) (s : List Char) (p : Nat)
    (g : GMap) (k : Nat → GMap → Option (Nat × GMap)) (r : Nat × GMap),
    p ≤ s.length → matRE fuel re s p g k = some r →
    ∃ p1 g1, p ≤ p1 ∧ p1 ≤ s.length ∧ k p1 g1 = some r := by
  intro fuel
  induction fuel with
  | zero => intro re s p g k r hp h; simp [matRE] at h
  | succ f ih =>
    intro re s p g k r hp h
    cases re with
    | eps => exact ⟨p, g, le_refl p, hp, h⟩
    | lit c =>
      simp only [matRE] at h
      split at h
      next d hg =>
        have hlt : p < s.length := (List.get?_eq_some.mp hg).1
        split at h
        · exact ⟨p + 1, g, Nat.le_succ p, hlt, h⟩
        · cases h
      next => cases h
    | cls t =>
      simp only [matRE] at h
      split at h
      next d hg =>
        have hlt : p < s.length := (List.get?_eq_some.mp hg).1
        split at h
        · exact ⟨p + 1, g, Nat.le_succ p, hlt, h⟩
        · cases h
      next => cases h
    | any =>
      simp only [matRE] at h
      split at h
      next d hg =>
        have hlt : p < s.length := (List.get?_eq_some.mp hg).1
        split at h
        · cases h
        · exact ⟨p + 1, g, Nat.le_succ p, hlt, h⟩
      next => cases h
    | seq a b =>
      simp only [matRE] at h
      obtain ⟨p1, g1, hp1, hp1s, h1⟩ := ih a s p g _ r hp h
      obtain ⟨p2, g2, hp2, hp2s, h2⟩ := ih b s p1 g1 k r hp1s h1
      exact ⟨p2, g2, le_trans hp1 hp2, hp2s, h2⟩
    | alt a b =>
      simp only [matRE] at h
      rcases orO_eq_some h with h1 | h1
      · exact ih a s p g k r hp h1
      · exact ih b s p g k r hp h1
    | grp i a =>
      simp only [matRE] at h
      obtain ⟨p1, g1, hp1, hp1s, h1⟩ := ih a s p g _ r hp h
      exact ⟨p1, setG g1 i p p1, hp1, hp1s, h1⟩
    | star greedy a =>
      simp only [matRE] at h
      have core : matRE f a s p g
          (fun p1 g1 =>
            if p < p1 then matRE f (RE.star greedy a) s p1 g1 k else none)
          = some r →
          ∃ p1 g1, p ≤ p1 ∧ p1 ≤ s.length ∧ k p1 g1 = some r := by
        intro hm
        obtain ⟨p1, g1, hp1, hp1s, h1⟩ := ih a s p g _ r hp hm
        by_cases hlt : p < p1
        · rw [if_pos hlt] at h1
          obtain ⟨p2, g2, hp2, hp2s, h2⟩ :=
            ih (RE.star greedy a) s p1 g1 k r hp1s h1
          exact ⟨p2, g2, le_trans hp1 hp2, hp2s, h2⟩
        · rw [if_neg hlt] at h1; cases h1
      by_cases hgr : greedy = true
      · rw [if_pos hgr] at h
        rcases orO_eq_some h with h1 | h1
        · exact core h1
        · exact ⟨p, g, le_refl p, hp, h1⟩
      · rw [if_neg hgr] at h
        rcases orO_eq_some h with h1 | h1
        · exact ⟨p, g, le_refl p, hp, h1⟩
        · exact core h1
    | plus greedy a =>
      simp only [matRE] at h
      obtain ⟨p1, g1, hp1, hp1s, h1⟩ := ih a s p g _ r hp h
      obtain ⟨p2, g2, hp2, hp2s, h2⟩ :=
        ih (RE.star greedy a) s p1 g1 k r hp1s h1
      exact ⟨p2, g2, le_trans hp1 hp2, hp2s, h2⟩
    | bref i =>
      simp only [matRE] at h
      split at h
      next a b hg =>
        split at h
        next hs =>
          have hlen := startsWithL_length _ _ hs
          rw [List.length_drop] at hlen
          exact ⟨p + (sliceL s a b).length, g, Nat.le_add_right p _,
            by omega, h⟩
        next => cases h
      next => cases h
    | eos =>
      simp only [matRE] at h
      split at h
      · exact ⟨p, g, le_refl p, hp, h⟩
      · split at h
        next d hg =>
          split at h
          · exact ⟨p, g, le_refl p, hp, h⟩
          · cases h
        next => cases h

theorem matchAt_bounds {re : RE} {s : List Char} {p e : Nat} {g : GMap}
    (hp : p ≤ s.length) (h : matchAt re s p = some (e, g)) :
    p ≤ e ∧ e ≤ s.length := by
  obtain ⟨p1, g1, hp1, hp1s, h1⟩ := matRE_advance _ re s p [] _ (e, g) hp h
  cases h1
  exact ⟨hp1, hp1s⟩

theorem searchFromAux_bounds : ∀ (fuel : Nat) (re : RE) (s : List Char)
    (p st en : Nat) (g : GMap), p ≤ s.length →
    searchFromAux fuel re s p = some (st, en, g) →
    p ≤ st ∧ st ≤ en ∧ en ≤ s.length := by
  intro fuel
  induction fuel with
  | zero => intro re s p st en g hp h; simp [searchFromAux] at h
  | succ f ih =>
    intro re s p st en g hp h
    simp only [searchFromAux] at h
    split at h
    next e g' hm =>
      cases h
      have := matchAt_bounds hp hm
      exact ⟨le_refl p, this.1, this.2⟩
    next =>
      split at h
      · cases h
      · obtain ⟨h1, h2, h3⟩ := ih re s (p + 1) st en g (by omega) h
        exact ⟨by omega, h2, h3⟩

theorem finditerAux_chain : ∀ (fuel : Nat) (re : RE) (s : List Char) (p : Nat),
    chainFrom s.length p (finditerAux fuel re s p) := by
  intro fuel
  induction fuel with
  | zero => intro re s p; simp [finditerAux, chainFrom]
  | succ f ih =>
    intro re s p
    simp only [finditerAux]
    split
    · trivial
    · split
      · trivial
      next st en g hs =>
        obtain ⟨h1, h2, h3⟩ :=
          searchFromAux_bounds _ re s p st en g (by omega) hs
        refine ⟨h1, h2, h3, ?_⟩
        exact chainFrom_mono (ih re s _) (by split <;> omega)

/-- The match list collected by `finditer` is a chain of non-overlapping
in-bounds spans. -/
theorem finditer_chain (re : RE) (s : List Char) :
    chainFrom s.length 0 (finditer re s) :=
  finditerAux_chain _ re s 0

theorem chainFrom_map {α β : Type} {len p : Nat} {ms : List (Nat × Nat × α)}
    (f : Nat × Nat × α → β) (h : chainFrom len p ms) :
    chainFrom len p (ms.map (fun m => (m.1, m.2.1, f m))) := by
  induction ms generalizing p with
  | nil => trivial
  | cons m ms ihm =>
    obtain ⟨st, en, a⟩ := m
    obtain ⟨h1, h2, h3, h4⟩ := h
    exact ⟨h1, h2, h3, ihm h4⟩

theorem pySub_of_no_match {re : RE} {t : Tmpl} {s : List Char}
    (h : finditer re s = []) : pySub re t s = s := by
  simp [pySub, h, simultaneousReplace, simReplaceFrom]

theorem applyFnRule_of_no_match {re : RE} {f : MData → List Char}
    {s : List Char} (h : finditer re s = []) : applyFnRule re f s = s := by
  simp [applyFnRule, fnReplacements, h, spliceRTL]

theorem applyRule_of_no_match {s : List Char} {r : Rule}
    (h : finditer r.1 s = []) : applyRule s r = s := by
  obtain ⟨re, repl⟩ := r
  cases repl with
  | tmpl t => exact pySub_of_no_match h
  | fn f => exact applyFnRule_of_no_match h

theorem applyAllFixesWith_of_no_match : ∀ (rules : List Rule) (q : List Char),
    (∀ r ∈ rules, finditer r.1 q = []) → applyAllFixesWith rules q = q := by
  intro rules
  induction rules with
  | nil => intro q _; rfl
  | cons r rules ihr =>
    intro q h
    have h0 : applyRule q r = q := applyRule_of_no_match (h r (by simp))
    show applyAllFixesWith rules (applyRule q r) = q
    rw [h0]
    exact ihr q (fun r' hr' => h r' (by simp [hr']))

/-- For a non-empty query the division in the logging branch has a
non-zero denominator, so the function returns a triple. -/
theorem validateAndFixStr_eq {q : List Char} (hq : q ≠ []) :
    validateAndFixStr q = some (finishResult (applyAllFixes q)) := by
  unfold validateAndFixStr validateAndFixStrWith
  rw [show applyAllFixesWith errorFixes q = applyAllFixes q from rfl]
  by_cases h : applyAllFixes q = q
  · simp [h]
  · have : q.length ≠ 0 := by
      cases q with
      | nil => exact absurd rfl hq
      | cons c rest => simp
    simp [h, this]

theorem hasSub_nil_pat : ∀ (s : List Char), hasSub s [] = true
  | [] => rfl
  | _ :: rest => by simp [hasSub, startsWithL]

theorem startsWithL_trans_append : ∀ (a b pat : List Char),
    startsWithL a pat = true → startsWithL (a ++ b) pat = true
  | _, _, [] => by intro _; simp [startsWithL]
  | [], _, _ :: _ => by intro h; simp [startsWithL] at h
  | c :: a, b, d :: pat => by
    intro h
    simp only [startsWithL, Bool.and_eq_true] at h ⊢
    exact ⟨h.1, startsWithL_trans_append a b pat h.2⟩

theorem startsWithL_self_append : ∀ (pat b : List Char),
    startsWithL (pat ++ b) pat = true
  | [], _ => by simp [startsWithL]
  | c :: pat, b => by
    simp only [List.cons_append, startsWithL, Bool.and_eq_true]
    exact ⟨by simp, startsWithL_self_append pat b⟩

theorem hasSub_of_startsWithL : ∀ {s pat : List Char},
    startsWithL s pat = true → hasSub s pat = true := by
  intro s pat h
  cases s with
  | nil =>
    cases pat with
    | nil => rfl
    | cons d p => simp [startsWithL] at h
  | cons c rest => simp [hasSub, h]

theorem hasSub_cons {rest pat : List Char} (c : Char)
    (h : hasSub rest pat = true) : hasSub (c :: rest) pat = true := by
  simp [hasSub, h]

theorem hasSub_append_left : ∀ {a : List Char} (b : List Char)
    {pat : List Char}, hasSub a pat = true → hasSub (a ++ b) pat = true := by
  intro a
  induction a with
  | nil =>
    intro b pat h
    simp only [hasSub] at h
    rw [List.nil_append, show pat = [] from by simpa using h]
    exact hasSub_nil_pat b
  | cons c rest ihc =>
    intro b pat h
    simp only [hasSub, Bool.or_eq_true] at h
    rcases h with h | h
    · exact hasSub_of_startsWithL
        (by simpa using startsWithL_trans_append (c :: rest) b pat h)
    · exact hasSub_cons c (ihc b h)

theorem hasSub_append_right : ∀ (a : List Char) {b pat : List Char},
    hasSub b pat = true → hasSub (a ++ b) pat = true := by
  intro a
  induction a with
  | nil => intro b pat h; simpa using h
  | cons c rest ihc => intro b pat h; exact hasSub_cons c (ihc h)

theorem hasSub_self_append (pat b : List Char) :
    hasSub (pat ++ b) pat = true :=
  hasSub_of_startsWithL (startsWithL_self_append pat b)

theorem hasSub_append_mid (a pat b : List Char) :
    hasSub (a ++ pat ++ b) pat = true := by
  rw [List.append_assoc]
  exact hasSub_append_right a (hasSub_self_append pat b)

theorem replaceAll_hasSub : ∀ (fuel : Nat) (s old new : List Char),
    old ≠ [] → s.length ≤ fuel → hasSub s old = true →
    hasSub (replaceAll fuel s old new) new = true := by
  intro fuel
  induction fuel with
  | zero =>
    intro s old new hold hlen h
    cases s with
    | nil => simp only [hasSub] at h; exact absurd (by simpa using h) hold
    | cons c rest => simp at hlen
  | succ f ihf =>
    intro s old new hold hlen h
    cases s with
    | nil => simp only [hasSub] at h; exact absurd (by simpa using h) hold
    | cons c rest =>
      simp only [replaceAll]
      by_cases hst : (!(old == []) && startsWithL (c :: rest) old) = true
      · rw [if_pos hst]
        exact hasSub_self_append new _
      · rw [if_neg hst]
        have hnotst : startsWithL (c :: rest) old = false := by
          rcases Bool.eq_false_or_eq_true (startsWithL (c :: rest) old)
            with ht | hf
          · exact absurd (by simp [ht, hold]) hst
          · exact hf
        have hrest : hasSub rest old = true := by
          simp only [hasSub, hnotst, Bool.false_or] at h
          exact h
        exact hasSub_cons c (ihf rest old new hold (by simpa using hlen) hrest)

theorem simReplaceFrom_mem_hasSub {s : List Char} :
    ∀ {ms : List Repl3} {p : Nat} {m : Repl3}, m ∈ ms →
      hasSub (simReplaceFrom s p ms) m.2.2 = true := by
  intro ms
  induction ms with
  | nil => intro p m h; cases h
  | cons m0 ms ihm =>
    intro p m h
    obtain ⟨st, en, r⟩ := m0
    rcases List.mem_cons.mp h with rfl | h
    · show hasSub ((s.drop p).take (st - p) ++ r ++ simReplaceFrom s en ms)
        r = true
      rw [List.append_assoc]
      exact hasSub_append_right _ (hasSub_self_append r _)
    · exact hasSub_append_right _ (ihm h)

theorem sliceL_self (s : List Char) (a : Nat) : sliceL s a a = [] := by
  simp [sliceL]

theorem sliceL_cons {s : List Char} {a b : Nat} {c : Char}
    (hab : a < b) (hc : s.get? a = some c) :
    sliceL s a b = c :: sliceL s (a + 1) b := by
  have hlt : a < s.length := (List.get?_eq_some.mp hc).1
  have h2 : s[a]? = some c := by rw [← List.get?_eq_getElem?]; exact hc
  have hdrop : s.drop a = c :: s.drop (a + 1) := by
    rw [List.drop_eq_getElem_cons hlt]
    congr 1
    obtain ⟨h3, h4⟩ := List.getElem?_eq_some.mp h2
    exact h4
  unfold sliceL
  rw [hdrop, show b - a = (b - (a + 1)) + 1 from by omega,
    List.take_succ_cons]

theorem sliceL_snoc {s : List Char} {a b : Nat} {c : Char}
    (hab : a ≤ b) (hc : s.get? b = some c) :
    sliceL s a (b + 1) = sliceL s a b ++ [c] := by
  unfold sliceL
  rw [show b + 1 - a = (b - a) + 1 from by omega, List.take_succ,
    List.getElem?_drop, show a + (b - a) = b from by omega,
    show s[b]? = some c from by rw [← List.get?_eq_getElem?]; exact hc]
  rfl

theorem matRE_fuel_pos {fuel : Nat} {re : RE} {s : List Char} {p : Nat}
    {g : GMap} {k : Nat → GMap → Option (Nat × GMap)} {r : Nat × GMap}
    (h : matRE fuel re s p g k = some r) : ∃ f, fuel = f + 1 := by
  cases fuel with
  | zero => simp [matRE] at h
  | succ f => exact ⟨f, rfl⟩

/-- A successful greedy star over a character class consumes a run of
class characters (possibly empty) and hands the continuation the
position after the run, with the groups unchanged. -/
theorem matRE_clsStar_shape : ∀ (fuel : Nat) (t : Char → Bool) (s : List Char)
    (p : Nat) (g : GMap) (k : Nat → GMap → Option (Nat × GMap))
    (r : Nat × GMap),
    matRE fuel (RE.star true (RE.cls t)) s p g k = some r →
    ∃ q, p ≤ q ∧ k q g = some r ∧ ∀ c ∈ sliceL s p q, t c = true := by
  intro fuel
  induction fuel with
  | zero => intro t s p g k r h; simp [matRE] at h
  | succ f ih =>
    intro t s p g k r h
    simp only [matRE] at h
    rcases orO_eq_some h with hm | hk
    · obtain ⟨f2, rfl⟩ := matRE_fuel_pos hm
      simp only [matRE] at hm
      split at hm
      next d hg =>
        split at hm
        next hd =>
          rw [if_pos (Nat.lt_succ_self p)] at hm
          obtain ⟨q, hq, hkq, hall⟩ := ih t s (p + 1) g k r hm
          refine ⟨q, by omega, hkq, ?_⟩
          rw [sliceL_cons (by omega) hg]
          intro c hc
          rcases List.mem_cons.mp hc with rfl | hc
          · exact hd
          · exact hall c hc
        next => cases hm
      next => cases hm
    · exact ⟨p, le_refl p, hk, by simp [sliceL_self]⟩

theorem matRE_seq_inv {fuel : Nat} {A B : RE} {s : List Char} {p : Nat}
    {g : GMap} {k : Nat → GMap → Option (Nat × GMap)} {r : Nat × GMap}
    (h : matRE fuel (RE.seq A B) s p g k = some r) :
    ∃ f, matRE f A s p g (fun p1 g1 => matRE f B s p1 g1 k) = some r := by
  obtain ⟨f, rfl⟩ := matRE_fuel_pos h
  exact ⟨f, by simpa only [matRE] using h⟩

theorem matRE_grp_inv {fuel i : Nat} {A : RE} {s : List Char} {p : Nat}
    {g : GMap} {k : Nat → GMap → Option (Nat × GMap)} {r : Nat × GMap}
    (h : matRE fuel (RE.grp i A) s p g k = some r) :
    ∃ f, matRE f A s p g (fun p1 g1 => k p1 (setG g1 i p p1)) = some r := by
  obtain ⟨f, rfl⟩ := matRE_fuel_pos h
  exact ⟨f, by simpa only [matRE] using h⟩

theorem matRE_plus_inv {fuel : Nat} {greedy : Bool} {A : RE} {s : List Char}
    {p : Nat} {g : GMap} {k : Nat → GMap → Option (Nat × GMap)}
    {r : Nat × GMap} (h : matRE fuel (RE.plus greedy A) s p g k = some r) :
    ∃ f, matRE f A s p g
      (fun p1 g1 => matRE f (RE.star greedy A) s p1 g1 k) = some r := by
  obtain ⟨f, rfl⟩ := matRE_fuel_pos h
  exact ⟨f, by simpa only [matRE] using h⟩

theorem matRE_lit_inv {fuel : Nat} {c : Char} {s : List Char} {p : Nat}
    {g : GMap} {k : Nat → GMap → Option (Nat × GMap)} {r : Nat × GMap}
    (h : matRE fuel (RE.lit c) s p g k = some r) :
    ∃ d, s.get? p = some d ∧ (d == c) = true ∧ k (p + 1) g = some r := by
  obtain ⟨f, rfl⟩ := matRE_fuel_pos h
  simp only [matRE] at h
  split at h
  next d hg =>
    split at h
    next hd => exact ⟨d, hg, hd, h⟩
    next => cases h
  next => cases h

theorem matRE_cls_inv {fuel : Nat} {t : Char → Bool} {s : List Char} {p : Nat}
    {g : GMap} {k : Nat → GMap → Option (Nat × GMap)} {r : Nat × GMap}
    (h : matRE fuel (RE.cls t) s p g k = some r) :
    ∃ d, s.get? p = some d ∧ t d = true ∧ k (p + 1) g = some r := by
  obtain ⟨f, rfl⟩ := matRE_fuel_pos h
  simp only [matRE] at h
  split at h
  next d hg =>
    split at h
    next hd => exact ⟨d, hg, hd, h⟩
    next => cases h
  next => cases h

theorem matRE_eps_inv {fuel : Nat} {s : List Char} {p : Nat} {g : GMap}
    {k : Nat → GMap → Option (Nat × GMap)} {r : Nat × GMap}
    (h : matRE fuel RE.eps s p g k = some r) : k p g = some r := by
  obtain ⟨f, rfl⟩ := matRE_fuel_pos h
  simpa only [matRE] using h

/-- Every match of rule 2's pattern `(\[)(:)([^\]]+)(\])` spans exactly a
text `[:mid]` with `mid` a non-empty run of non-`]` characters, and its
template `\1r\2\3\4` expands to `[r:mid]`. -/
theorem re2_matchAt_shape {s : List Char} {p e : Nat} {g : GMap}
    (h : matchAt re2 s p = some (e, g)) :
    ∃ mid, mid ≠ []
      ∧ (∀ c ∈ mid, (c == ']') = false)
      ∧ sliceL s p e = '[' :: ':' :: (mid ++ [']'])
      ∧ expandT s g tmpl2 = '[' :: 'r' :: ':' :: (mid ++ [']']) := by
  unfold matchAt at h
  rw [show re2 = RE.seq (RE.grp 1 (RE.lit '[')) (RE.seq (RE.grp 2 (RE.lit ':'))
    (RE.seq (RE.grp 3 (RE.plus true (RE.cls fun c => !(c == ']'))))
    (RE.seq (RE.grp 4 (RE.lit ']')) RE.eps))) from rfl] at h
  obtain ⟨fa, h⟩ := matRE_seq_inv h
  obtain ⟨fb, h⟩ := matRE_grp_inv h
  obtain ⟨d0, hg0, hd0, h⟩ := matRE_lit_inv h
  obtain ⟨fc, h⟩ := matRE_seq_inv h
  obtain ⟨fd, h⟩ := matRE_grp_inv h
  obtain ⟨d1, hg1, hd1, h⟩ := matRE_lit_inv h
  obtain ⟨fe, h⟩ := matRE_seq_inv h
  obtain ⟨ff, h⟩ := matRE_grp_inv h
  obtain ⟨fg, h⟩ := matRE_plus_inv h
  obtain ⟨d2, hg2, hd2, h⟩ := matRE_cls_inv h
  obtain ⟨q, hq, h, hall⟩ := matRE_clsStar_shape _ _ _ _ _ _ _ h
  obtain ⟨fh, h⟩ := matRE_seq_inv h
  obtain ⟨fi, h⟩ := matRE_grp_inv h
  obtain ⟨d3, hg3, hd3, h⟩ := matRE_lit_inv h
  have h := matRE_eps_inv h
  have hpair := Option.some.inj h
  have he : q + 1 = e := congrArg Prod.fst hpair
  have hgf : setG (setG (setG (setG [] 1 p (p + 1)) 2 (p + 1) (p + 1 + 1)) 3
      (p + 1 + 1) q) 4 q (q + 1) = g := congrArg Prod.snd hpair
  subst he
  subst hgf
  have e0 : d0 = '[' := eq_of_beq hd0
  have e1 : d1 = ':' := eq_of_beq hd1
  have e3 : d3 = ']' := eq_of_beq hd3
  subst e0; subst e1; subst e3
  have hd2f : (d2 == ']') = false := by simpa using hd2
  refine ⟨d2 :: sliceL s (p + 1 + 1 + 1) q, by simp, ?_, ?_, ?_⟩
  · intro c hc
    rcases List.mem_cons.mp hc with rfl | hc
    · exact hd2f
    · simpa using hall c hc
  · rw [sliceL_cons (by omega) hg0, sliceL_cons (by omega) hg1,
      sliceL_snoc (by omega) hg3, sliceL_cons (by omega) hg2]
  · have t1 : sliceL s p (p + 1) = ['['] := by
      rw [sliceL_cons (Nat.lt_succ_self p) hg0, sliceL_self]
    have t2 : sliceL s (p + 1) (p + 1 + 1) = [':'] := by
      rw [sliceL_cons (Nat.lt_succ_self _) hg1, sliceL_self]
    have t3 : sliceL s (p + 1 + 1) q = d2 :: sliceL s (p + 1 + 1 + 1) q :=
      sliceL_cons (by omega) hg2
    have t4 : sliceL s q (q + 1) = [']'] := by
      rw [sliceL_cons (Nat.lt_succ_self _) hg3, sliceL_self]
    simp [expandT, tmpl2, setG, lookupG, t1, t2, t3, t4, cs]

theorem searchFromAux_matchAt : ∀ (fuel : Nat) (re : RE) (s : List Char)
    (p st en : Nat) (g : GMap),
    searchFromAux fuel re s p = some (st, en, g) →
    matchAt re s st = some (en, g) := by
  intro fuel
  induction fuel with
  | zero => intro re s p st en g h; simp [searchFromAux] at h
  | succ f ih =>
    intro re s p st en g h
    simp only [searchFromAux] at h
    split at h
    next e g' hm =>
      cases h
      exact hm
    next =>
      split at h
      · cases h
      · exact ih re s (p + 1) st en g h

theorem finditerAux_mem_matchAt : ∀ (fuel : Nat) (re : RE) (s : List Char)
    (p st en : Nat) (g : GMap),
    (st, en, g) ∈ finditerAux fuel re s p →
    matchAt re s st = some (en, g) := by
  intro fuel
  induction fuel with
  | zero => intro re s p st en g h; simp [finditerAux] at h
  | succ f ih =>
    intro re s p st en g h
    simp only [finditerAux] at h
    split at h
    · cases h
    · split at h
      · cases h
      next st' en' g' hs =>
        rcases List.mem_cons.mp h with heq | h
        · obtain ⟨h1, h2, h3⟩ : st = st' ∧ en = en' ∧ g = g' :=
            ⟨congrArg (fun x => x.1) heq, congrArg (fun x => x.2.1) heq,
              congrArg (fun x => x.2.2) heq⟩
          subst h1; subst h2; subst h3
          exact searchFromAux_matchAt _ re s p st en g hs
        · exact ih re s _ st en g h

/-- Membership in `finditer` means an anchored match at that span. -/
theorem finditer_mem_matchAt {re : RE} {s : List Char} {st en : Nat}
    {g : GMap} (h : (st, en, g) ∈ finditer re s) :
    matchAt re s st = some (en, g) :=
  finditerAux_mem_matchAt _ re s 0 st en g h

theorem finishResult_eq (f : List Char) :
    finishResult f = (f, true,
      if checkKnownIssues f = [] then none
      else some (cs "Query has potential issues: "
        ++ joinWith (cs ", ") (checkKnownIssues f))) := by
  by_cases h : checkKnownIssues f = []
  · simp [finishResult, h]
  · simp [finishResult, h]

/-- C1: every input that is not a non-empty string (empty string, `None`,
or a non-string value) yields `(input unchanged, false, "Invalid query:
Query must be a non-empty string")` immediately and without raising, and
every non-empty string input yields `is_valid = true` — the input guard
is the only path producing `false`. -/
theorem c1_input_guard :
    (∀ v : PyVal, isNonEmptyStr v = false →
      validateAndFix v = some (v, false, some invalidMsg))
    ∧ ∀ s : String, s.data ≠ [] →
      ∃ fq m, validateAndFix (.str s) = some (.str fq, true, m) := by
  constructor
  · intro v hv
    cases v with
    | str s =>
      have hs : s.data = [] := by simpa [isNonEmptyStr] using hv
      simp [validateAndFix, validateAndFixUsing, hs]
    | pynone => rfl
    | other => rfl
  · intro s hs
    have he : validateAndFixStrWith errorFixes s.data
        = some (finishResult (applyAllFixes s.data)) := validateAndFixStr_eq hs
    have hsnd : (finishResult (applyAllFixes s.data)).2.1 = true := by
      rw [finishResult_eq]
    refine ⟨⟨(finishResult (applyAllFixes s.data)).1⟩,
      (finishResult (applyAllFixes s.data)).2.2.map (fun m => ⟨m⟩), ?_⟩
    show validateAndFixUsing errorFixes (.str s) = _
    simp only [validateAndFixUsing]
    rw [if_neg hs, he, Option.map_some', hsnd]

/-- Witness for C1: the guard fires on `None`, and a concrete non-empty
query is validated with `is_valid = true`. -/
theorem c1_input_guard_witness :
    validateAndFix PyVal.pynone = some (PyVal.pynone, false, some invalidMsg)
    ∧ (validateAndFix (.str "RETURN 1")).map (fun r => r.2.1) = some true := by
  refine ⟨c1_input_guard.1 PyVal.pynone rfl, ?_⟩
  obtain ⟨fq, m, hev⟩ := c1_input_guard.2 "RETURN 1" (by decide)
  rw [hev]
  rfl

/-- The counterexample query for C2. -/
def q2ce : List Char := cs "MATCH (a) MATCH (b)"

/-- C2 as stated is false: `q2ce` contains none of the seven flagged
anti-patterns (no rule of `error_fixes` finds a match in it), yet
`validate_and_fix` does not return `(q, true, null)` — the heuristic
issue check attaches a cartesian-product message. -/
theorem c2_counterexample :
    finditer re1 q2ce = [] ∧ finditer re2 q2ce = [] ∧ finditer re3 q2ce = []
    ∧ finditer re4 q2ce = [] ∧ finditer re5 q2ce = []
    ∧ finditer re6 q2ce = [] ∧ finditer re7 q2ce = []
    ∧ validateAndFixStr q2ce ≠ some (q2ce, true, none) :=
  ⟨by decide, by decide, by decide, by decide, by decide, by decide,
    by decide, by decide⟩

/-- C2 amended: for a non-empty query matched by none of the seven
rewrite rules and flagged by none of the heuristic issue checks,
`validate_and_fix` returns exactly `(q, true, null)`; without the last
proviso the query text and `is_valid` are still unchanged but the
message may be non-null. -/
theorem c2_amended (q : List Char) (hq : q ≠ [])
    (hr : ∀ r ∈ errorFixes, finditer r.1 q = [])
    (hi : checkKnownIssues q = []) :
    validateAndFixStr q = some (q, true, none) := by
  have hfix : applyAllFixes q = q :=
    applyAllFixesWith_of_no_match errorFixes q hr
  rw [validateAndFixStr_eq hq, finishResult_eq, hfix, hi]
  simp

/-- Witness for C2 (amended) on a concrete pattern-free query. -/
theorem c2_amended_witness :
    validateAndFixStr (cs "RETURN 1") = some (cs "RETURN 1", true, none) :=
  c2_amended (cs "RETURN 1") (by decide)
    (by intro r hr; fin_cases hr <;> decide) (by decide)

theorem tail_pattern_ne_nil (t : List Char) : cs "-[:" ++ t ++ cs "]->" ≠ [] := by
  intro h
  have := congrArg List.length h
  simp [cs] at this

/-- C3: rule 7's repair function `_ensure_relationship_var_defined`:
when the relationship variable referenced after WHERE is not yet defined
in the match clause and the clause contains an anonymous relationship of
the same type, the output carries that variable on the aliased
relationship `-[var:type]->`; and when the variable is already defined
in the match clause, the repair returns the whole matched span
unchanged. -/
theorem c3_rule7_repair (w mc v t p : List Char) :
    (hasSub mc (cs "-[" ++ v ++ cs ":") = false →
      hasSub mc (cs "-[:" ++ t ++ cs "]->") = true →
      hasSub (ensureRelationshipVarDefined ⟨w, mc, v, t, p⟩)
        (cs "-[" ++ v ++ cs ":" ++ t ++ cs "]->") = true)
    ∧ (hasSub mc (cs "-[" ++ v ++ cs ":") = true →
      ensureRelationshipVarDefined ⟨w, mc, v, t, p⟩ = w) := by
  constructor
  · intro hnot hanon
    have hrep : hasSub (pyReplace mc (cs "-[:" ++ t ++ cs "]->")
        (cs "-[" ++ v ++ cs ":" ++ t ++ cs "]->"))
        (cs "-[" ++ v ++ cs ":" ++ t ++ cs "]->") = true :=
      replaceAll_hasSub _ _ _ _ (tail_pattern_ne_nil t) (Nat.le_succ _) hanon
    simp only [ensureRelationshipVarDefined, hnot, Bool.false_eq_true,
      if_false]
    repeat apply hasSub_append_left
    exact hrep
  · intro hdef
    simp only [ensureRelationshipVarDefined, hdef, if_true]

/-- Witness for C3: the repair branch aliases the anonymous `KNOWS`
relationship with `x`, and the no-repair branch returns the span
unchanged. -/
theorem c3_rule7_repair_witness :
    hasSub (ensureRelationshipVarDefined
        ⟨cs "w", cs "MATCH (a)-[:KNOWS]->(b)", cs "x", cs "KNOWS", cs "p"⟩)
      (cs "-[" ++ cs "x" ++ cs ":" ++ cs "KNOWS" ++ cs "]->") = true
    ∧ ensureRelationshipVarDefined
        ⟨cs "w2", cs "MATCH (a)-[x:KNOWS]->(b)", cs "x", cs "KNOWS", cs "p"⟩
      = cs "w2" :=
  ⟨(c3_rule7_repair (cs "w") (cs "MATCH (a)-[:KNOWS]->(b)") (cs "x")
      (cs "KNOWS") (cs "p")).1 (by decide) (by decide),
    (c3_rule7_repair (cs "w2") (cs "MATCH (a)-[x:KNOWS]->(b)") (cs "x")
      (cs "KNOWS") (cs "p")).2 (by decide)⟩

/-- C4: whenever rule 7's repair branch fires (the variable is not found
in the match-clause group), the spliced text is exactly the match clause
(with the same-typed anonymous relationship aliased) followed by the
fixed-format string `-[var:type]->.*?WHERE.*?var.prop`: the regex
metacharacters `.*?` appear as literal characters and the original text
of the span after the relationship is discarded; concretely, the branch
fires on `MATCH (a)-[r:KNOWS]->(b) WHERE r.since > 2000`, whose
relationship variable is properly declared, corrupting the query. -/
theorem c4_rule7_fire_shape :
    (∀ w mc v t p : List Char,
      hasSub mc (cs "-[" ++ v ++ cs ":") = false →
      ensureRelationshipVarDefined ⟨w, mc, v, t, p⟩ =
        pyReplace mc (cs "-[:" ++ t ++ cs "]->")
            (cs "-[" ++ v ++ cs ":" ++ t ++ cs "]->")
          ++ cs "-[" ++ v ++ cs ":" ++ t ++ cs "]->.*?WHERE.*?"
          ++ v ++ cs "." ++ p
      ∧ hasSub (ensureRelationshipVarDefined ⟨w, mc, v, t, p⟩)
          (cs ".*?") = true)
    ∧ validateAndFixStr (cs "MATCH (a)-[r:KNOWS]->(b) WHERE r.since > 2000")
      = some (cs "MATCH (a)-[r:KNOWS]->.*?WHERE.*?r.since > 2000", true,
        none) := by
  constructor
  · intro w mc v t p hnot
    constructor
    · simp only [ensureRelationshipVarDefined, hnot, Bool.false_eq_true,
        if_false]
    · simp only [ensureRelationshipVarDefined, hnot, Bool.false_eq_true,
        if_false]
      apply hasSub_append_left
      apply hasSub_append_left
      apply hasSub_append_left
      apply hasSub_append_right
      decide
  · decide

/-- Witness for C4 at the groups captured from the concrete query. -/
theorem c4_rule7_fire_shape_witness :
    ensureRelationshipVarDefined
        ⟨cs "MATCH (a)-[r:KNOWS]->(b) WHERE r.since", cs "MATCH (a)",
          cs "r", cs "KNOWS", cs "since"⟩ =
      pyReplace (cs "MATCH (a)") (cs "-[:" ++ cs "KNOWS" ++ cs "]->")
          (cs "-[" ++ cs "r" ++ cs ":" ++ cs "KNOWS" ++ cs "]->")
        ++ cs "-[" ++ cs "r" ++ cs ":" ++ cs "KNOWS" ++ cs "]->.*?WHERE.*?"
        ++ cs "r" ++ cs "." ++ cs "since"
    ∧ hasSub (ensureRelationshipVarDefined
        ⟨cs "MATCH (a)-[r:KNOWS]->(b) WHERE r.since", cs "MATCH (a)",
          cs "r", cs "KNOWS", cs "since"⟩) (cs ".*?") = true :=
  c4_rule7_fire_shape.1 (cs "MATCH (a)-[r:KNOWS]->(b) WHERE r.since")
    (cs "MATCH (a)") (cs "r") (cs "KNOWS") (cs "since") (by decide)

/-- C5: for rules applied through a replacement function, collecting all
non-overlapping matches upfront and splicing the computed replacements
from the last match back to the first yields exactly the simultaneous
replacement of every matched span; in particular, on a query with three
matches whose replacements shrink the text, every occurrence is
rewritten independently and correctly. -/
theorem c5_rtl_splice_equals_simultaneous :
    (∀ (re : RE) (f : MData → List Char) (s : List Char),
      applyFnRule re f s = simultaneousReplace s (fnReplacements re f s))
    ∧ applyFnRule re3 fixUndefinedRelationshipVar (cs "(r.a  (r.b  (r.c  x")
        = cs "(r.a (r.b (r.c x"
    ∧ (fnReplacements re3 fixUndefinedRelationshipVar
        (cs "(r.a  (r.b  (r.c  x")).length = 3 := by
  refine ⟨?_, by decide, by decide⟩
  intro re f s
  unfold applyFnRule
  exact spliceRTL_eq_sim
    (chainFrom_map (fun m => f (mkMData s m.1 m.2.1 m.2.2))
      (finditer_chain re s))

theorem not_mem_if_singleton {a x : List Char} {b : Bool} (hne : a ≠ x) :
    a ∉ (if b = true then [x] else []) := by
  cases b <;> simp [hne]

/-- The counterexample query for C6: the WHERE clause references `x.p`,
no `MATCH ... [x:` pattern defines `x`, yet no issue is reported because
the code only tests for a `MATCH ... [<ident>:` pattern with ANY
variable (here `y`). -/
def q6ce : List Char := cs "MATCH (a)-[y:T]->(b) WHERE x.p"

/-- C6 as stated is false: in `q6ce` a WHERE clause references the
property access `x.p` and no `MATCH ... [x:` pattern defines `x`
anywhere in the query, yet the issue "Possible undefined relationship
variable" is not reported. -/
theorem c6_counterexample :
    hasSub q6ce (cs "WHERE x.p") = true
    ∧ hasSub q6ce (cs "[x:") = false
    ∧ issueUndefRel ∉ checkKnownIssues q6ce :=
  ⟨by decide, by decide, by decide⟩

/-- C6 amended: the issue "Possible undefined relationship variable" is
reported exactly when the post-rewrite query matches
`WHERE.*?\w+\.\w+` and contains no `MATCH.*?\[(\w+):` match for ANY
variable (not necessarily the referenced one). -/
theorem c6_amended (q : List Char) :
    (issueUndefRel ∈ checkKnownIssues q) ↔
      ((pySearch reWhereProp q).isSome = true
        ∧ (pySearch reMatchBr q).isSome = false) := by
  have hne2 : issueUndefRel ≠ issueCartesian := by decide
  have hne3 : issueUndefRel ≠ issueOptional := by decide
  have hne4 : issueUndefRel ≠ issueUnbounded := by decide
  constructor
  · intro h
    by_cases hb : ((pySearch reWhereProp q).isSome
        && !(pySearch reMatchBr q).isSome) = true
    · have h12 := hb
      simp only [Bool.and_eq_true] at h12
      rcases h12 with ⟨h1, h2⟩
      exact ⟨h1, by simpa using h2⟩
    · exfalso
      unfold checkKnownIssues at h
      rw [if_neg hb, List.nil_append] at h
      rcases List.mem_append.mp h with h | h
      · rcases List.mem_append.mp h with h | h
        · exact not_mem_if_singleton hne2 h
        · exact not_mem_if_singleton hne3 h
      · exact not_mem_if_singleton hne4 h
  · rintro ⟨h1, h2⟩
    have hb : ((pySearch reWhereProp q).isSome
        && !(pySearch reMatchBr q).isSome) = true := by
      simp [h1, h2]
    unfold checkKnownIssues
    rw [if_pos hb]
    exact List.mem_append.mpr (Or.inl (List.mem_append.mpr (Or.inl
      (List.mem_append.mpr (Or.inl (List.mem_singleton.mpr rfl))))))

/-- C7: the post-rewrite heuristic check never changes the returned
query text; the message is exactly `"Query has potential issues: "`
followed by the comma-joined issue list when at least one issue is
detected, and null otherwise. -/
theorem c7_issue_check_only_annotates (q : List Char) (hq : q ≠ []) :
    validateAndFixStr q = some (applyAllFixes q, true,
      if checkKnownIssues (applyAllFixes q) = [] then none
      else some (cs "Query has potential issues: "
        ++ joinWith (cs ", ") (checkKnownIssues (applyAllFixes q)))) := by
  rw [validateAndFixStr_eq hq, finishResult_eq]

/-- Witness for C7 on a concrete query. -/
theorem c7_issue_check_only_annotates_witness :
    validateAndFixStr (cs "RETURN 42") = some (applyAllFixes (cs "RETURN 42"),
      true,
      if checkKnownIssues (applyAllFixes (cs "RETURN 42")) = [] then none
      else some (cs "Query has potential issues: "
        ++ joinWith (cs ", ")
          (checkKnownIssues (applyAllFixes (cs "RETURN 42"))))) :=
  c7_issue_check_only_annotates (cs "RETURN 42") (by decide)

/-- The first counterexample query for C8: rule 6 later deletes the
aliased relationship text. -/
def q8a : List Char := cs "WHERE (a)-[:KNOWS]->(b) AND (a)-[:KNOWS]->(b)"

/-- The second counterexample query for C8: an earlier unclosed `[:`
swallows the `-[:KNOWS]->` occurrence into a larger rule-2 match. -/
def q8b : List Char := cs "[: -[:KNOWS]->"

/-- C8 as stated is false: both `q8a` and `q8b` contain `-[:KNOWS]->`,
yet the query returned by `validate_and_fix` contains no
`-[r:KNOWS]->`. -/
theorem c8_counterexample :
    (hasSub q8a (cs "-[:KNOWS]->") = true
      ∧ validateAndFixStr q8a = some (cs "WHERE (a)-[]->b", true, none)
      ∧ hasSub (cs "WHERE (a)-[]->b") (cs "-[r:KNOWS]->") = false)
    ∧ (hasSub q8b (cs "-[:KNOWS]->") = true
      ∧ validateAndFixStr q8b = some (cs "[r: -[:KNOWS]->", true, none)
      ∧ hasSub (cs "[r: -[:KNOWS]->") (cs "-[r:KNOWS]->") = false) :=
  ⟨⟨by decide, by decide, by decide⟩, ⟨by decide, by decide, by decide⟩⟩

/-- C8 amended: rule 2's single substitute-all pass rewrites every span
it matches — each matched span is exactly an anonymous relationship
`[:mid]` (with `mid` a non-empty bracket-free text) and is replaced by
`[r:mid]`, which appears in the post-rule-2 query; concretely
`-[:KNOWS]->` becomes `-[r:KNOWS]->` and three anonymous relationships
are all aliased; but an occurrence swallowed into a larger match (after
an unclosed `[:`) is not rewritten as such, and later rules may remove
the aliased text from the final result. -/
theorem c8_rule2_substitute_all :
    (∀ (q : List Char) (st en : Nat) (g : GMap),
      (st, en, g) ∈ finditer re2 q →
      ∃ mid, mid ≠ []
        ∧ (∀ c ∈ mid, (c == ']') = false)
        ∧ sliceL q st en = '[' :: ':' :: (mid ++ [']'])
        ∧ expandT q g tmpl2 = '[' :: 'r' :: ':' :: (mid ++ [']'])
        ∧ hasSub (pySub re2 tmpl2 q)
            ('[' :: 'r' :: ':' :: (mid ++ [']'])) = true)
    ∧ pySub re2 tmpl2 (cs "MATCH (a)-[:KNOWS]->(b)")
        = cs "MATCH (a)-[r:KNOWS]->(b)"
    ∧ pySub re2 tmpl2 (cs "[:A][:B][:C]") = cs "[r:A][r:B][r:C]" := by
  refine ⟨?_, by decide, by decide⟩
  intro q st en g hmem
  obtain ⟨mid, hne, hmid, hslice, hexp⟩ :=
    re2_matchAt_shape (finditer_mem_matchAt hmem)
  refine ⟨mid, hne, hmid, hslice, hexp, ?_⟩
  rw [← hexp]
  unfold pySub simultaneousReplace
  exact simReplaceFrom_mem_hasSub
    (List.mem_map.mpr ⟨(st, en, g), hmem, rfl⟩)

/-- Witness for C8 (amended) at the single rule-2 match of `a[:B]c`. -/
theorem c8_rule2_substitute_all_witness :
    ∃ mid, mid ≠ []
      ∧ (∀ c ∈ mid, (c == ']') = false)
      ∧ sliceL (cs "a[:B]c") 1 5 = '[' :: ':' :: (mid ++ [']'])
      ∧ expandT (cs "a[:B]c") [(4, 4, 5), (3, 3, 4), (2, 2, 3), (1, 1, 2)]
          tmpl2 = '[' :: 'r' :: ':' :: (mid ++ [']'])
      ∧ hasSub (pySub re2 tmpl2 (cs "a[:B]c"))
          ('[' :: 'r' :: ':' :: (mid ++ [']'])) = true :=
  c8_rule2_substitute_all.1 (cs "a[:B]c") 1 5
    [(4, 4, 5), (3, 3, 4), (2, 2, 3), (1, 1, 2)] (by decide)

/-- C9: `validate_and_fix` is deterministic and stateless: the method
leaves the instance's `error_fixes` table unchanged, a repeated call on
the same instance returns the identical triple, and a freshly
constructed instance computes the canonical function of the input. -/
theorem c9_deterministic_stateless (self : QueryValidatorState) (q : PyVal) :
    (validateAndFixMeth self q).1 = self
    ∧ (validateAndFixMeth ((validateAndFixMeth self q).1) q).2
        = (validateAndFixMeth self q).2
    ∧ validateAndFixMeth queryValidatorInit q
        = (queryValidatorInit, validateAndFix q) :=
  ⟨rfl, rfl, rfl⟩

/-- C10: `validate_and_fix` terminates with a value on every input and
never raises: the division `len(fixed_query) / len(original_query)` is
reached only behind the non-empty-string guard, so its denominator is
never zero. -/
theorem c10_never_raises (v : PyVal) : (validateAndFix v).isSome = true := by
  cases v with
  | str s =>
    by_cases hs : s.data = []
    · simp [validateAndFix, validateAndFixUsing, hs]
    · have he : validateAndFixStrWith errorFixes s.data
          = some (finishResult (applyAllFixes s.data)) :=
        validateAndFixStr_eq hs
      simp [validateAndFix, validateAndFixUsing, hs, he]
  | pynone => rfl
  | other => rfl
